import Mathlib

/-!
Verification of the asset-update decision procedure in
`src/scripts/update_assets.py`.

The script's collaborators (`config.AssetConfig` / `EnvironmentConfig` /
`Spec`, `util.are_dir_trees_equal` / `copy_replace_dir`, `pin_versions`,
`update_spec`, the logger and pygit2) are not part of the source tree; they
are modelled from the spec as operations over an explicit filesystem value.
Directory trees are association lists from relative file paths to structured
file contents; the git repository is a list of reference names; the pinning
text transform is an abstract function parameter.  Warnings and writes are
recorded as an explicit event trace so that ordering claims can be stated.
-/

set_option autoImplicit false

namespace UpdateAssets

/-- Modelled from the spec: `config.AssetType` (not under src/), "a type tag
(e.g. environment/image)".  `value` is the string rendered into git tags and
log lines. -/
inductive AssetType where
  | environment
  | image
deriving DecidableEq

def AssetType.value : AssetType → String
  | .environment => "environment"
  | .image => "image"

/-- A file's content.  Modelled from the spec: config parsing is an external
collaborator, so config/spec files are carried in parsed form; all other
files are opaque byte strings. -/
inductive FileContent where
  | assetCfg (ty : AssetType) (name : String) (version : Option String)
      (specName : String) (extraCfgName : Option String)
  | specFile (version : Option String) (body : String)
  | envCfg (osName : String) (templateFiles : List String)
  | raw (s : String)
deriving DecidableEq

/-- A directory tree: an association list from relative paths to contents. -/
abbrev Tree : Type := List (String × FileContent)

def lookupFile : Tree → String → Option FileContent
  | [], _ => none
  | (q, c) :: t, p => if q = p then some c else lookupFile t p

/-- Write a file: replace the first entry at that path, or append. -/
def setFile : Tree → String → FileContent → Tree
  | [], p, c => [(p, c)]
  | (q, d) :: t, p, c => if q = p then (p, c) :: t else (q, d) :: setFile t p c

/-- Modelled from the spec: `util.are_dir_trees_equal` (not under src/),
"true iff both trees contain the same set of relative file paths and each
corresponding pair of files is byte-identical". -/
def are_dir_trees_equal (a b : Tree) : Bool :=
  ((a ++ b).map Prod.fst).all fun k => decide (lookupFile a k = lookupFile b k)

/-- Modelled from the spec: `config.AssetConfig` (not under src/),
"a type tag, a name, a version (may be absent, meaning dynamically
versioned), and a filesystem location", plus the spec-file and
extra-config-file names it exposes as `spec` / `extra_config`. -/
structure AssetConfigData where
  type : AssetType
  name : String
  version : Option String
  specName : String
  extraCfgName : Option String
deriving DecidableEq

/-- Modelled from the spec: constructing `AssetConfig(path)`; raises (none)
when the file is missing or not an asset-config file. -/
def loadAssetConfig (t : Tree) (fileName : String) : Option AssetConfigData :=
  match lookupFile t fileName with
  | some (.assetCfg ty n v s e) => some ⟨ty, n, v, s, e⟩
  | _ => none

/-- Modelled from the spec: `config.Spec`, "holding at minimum a version
string". -/
def loadSpec (t : Tree) (p : String) : Option (Option String × String) :=
  match lookupFile t p with
  | some (.specFile v b) => some (v, b)
  | _ => none

/-- Modelled from the spec: `config.EnvironmentConfig`, "an operating-system
tag and a list of template files to pin". -/
def loadEnvConfig (t : Tree) (p : String) : Option (String × List String) :=
  match lookupFile t p with
  | some (.envCfg o fs) => some (o, fs)
  | _ => none

/-- Modelled from the spec: `update_spec.update` (not under src/), "updated
in place to record a new version" — rewrites the version field of the spec
file, keeping the rest of its content. -/
def update_spec (t : Tree) (p : String) (v : Option String) : Option Tree :=
  match lookupFile t p with
  | some (.specFile _ b) => some (setFile t p (.specFile v b))
  | _ => none

/-- Python truthiness of an optional string (absent and empty are falsy). -/
def truthy : Option String → Bool
  | none => false
  | some s => s != ""

/-- Python rendering of a possibly-absent version into a format string. -/
def versionStr : Option String → String
  | some s => s
  | none => "None"

def parseDigits (acc : Nat) : List Char → Option Nat
  | [] => some acc
  | c :: cs =>
    if 48 ≤ c.toNat ∧ c.toNat ≤ 57 then
      parseDigits (acc * 10 + (c.toNat - 48)) cs
    else none

/-- Modelled: Python `int()` on the decimal version strings that occur here;
anything non-numeric raises (none). -/
def parse_int (s : String) : Option Nat :=
  match s.data with
  | [] => none
  | l => parseDigits 0 l

/-- `RELEASE_TAG_VERSION_TEMPLATE = "{type}/{name}/{version}"`. -/
def RELEASE_TAG_VERSION (ty nm ver : String) : String :=
  ty ++ "/" ++ nm ++ "/" ++ ver

/-- `TAG_TEMPLATE = "refs/tags/{name}"`. -/
def TAG (nm : String) : String := "refs/tags/" ++ nm

/-- `release_tag_exists` (src/scripts/update_assets.py lines 28-33): looks up
the reference `refs/tags/{type}/{name}/{version}` built from the given
asset config's own fields — note that an absent config version renders as
the string "None". -/
def release_tag_exists (tags : List String) (cfg : AssetConfigData) : Bool :=
  tags.contains (TAG (RELEASE_TAG_VERSION cfg.type.value cfg.name (versionStr cfg.version)))

/-- Observable events of one `update_asset` run, in program order. -/
inductive Event where
  | copyReplaceDir
  | pinFile (f : String)
  | warnPinMissing (f : String)
  | warnUnreleased (ty nm : String) (v : Option String)
  | stampTemp (v : Option String)
  | compareDirs (equal : Bool)
  | copySpecToOutput
  | updateOutputSpec (v : String)
deriving DecidableEq

/-- `pin_env_files` (lines 20-25): for each declared template file, transform
it if it exists, otherwise log a warning and continue.  The pinning text
transform `pinC` (`pin_versions.transform_file`, not under src/) is an
abstract function on file contents. -/
def pin_env_files (pinC : FileContent → FileContent) (t : Tree) :
    List String → Tree × List Event
  | [] => (t, [])
  | f :: rest =>
    match lookupFile t f with
    | some c =>
      let r := pin_env_files pinC (setFile t f (pinC c)) rest
      (r.1, .pinFile f :: r.2)
    | none =>
      let r := pin_env_files pinC t rest
      (r.1, .warnPinMissing f :: r.2)

/-- The filesystem as seen by one asset: its source directory, its release
directory (none when `release_dir` does not exist) and, when a distinct
output root is given, its output directory there.  When no distinct output
root is given the output directory IS the release directory (lines 43-47),
so writes alias. -/
structure FS where
  source : Tree
  release : Option Tree
  outputSep : Option Tree
deriving DecidableEq

/-- The output directory (line 44-47): the separate output root when given,
else the release directory. -/
def FS.outputDir (fs : FS) (sep : Bool) : Option Tree :=
  if sep then fs.outputSep else fs.release

/-- Modelled from the spec: `util.copy_replace_dir` — "replacing any existing
directory wholesale (remove-then-copy semantics)" at the output location. -/
def FS.copy_replace_dir (fs : FS) (sep : Bool) (t : Tree) : FS :=
  if sep then { fs with outputSep := some t } else { fs with release := some t }

/-- Result of one `update_asset` run: the returned version (`none` = Python
`None`), the filesystem afterwards and the event trace.  A raised exception
is the overall `none` of `Option UAResult`. -/
structure UAResult where
  ret : Option String
  fs : FS
  trace : List Event
deriving DecidableEq

/-- Lines 83-89: copy the source asset into a scratch directory and, for an
ENVIRONMENT asset, pin its declared template files.  The scratch config is
loaded from the fresh copy, i.e. it equals the source's config. -/
def stage_temp (pinC : FileContent → FileContent) (cfgFileName : String)
    (source : Tree) : Option (Tree × List Event) :=
  match loadAssetConfig source cfgFileName with
  | none => none
  | some tempCfg =>
    if tempCfg.type = .environment then
      match tempCfg.extraCfgName with
      | none => none
      | some ecn =>
        match loadEnvConfig source ecn with
        | none => none
        | some (_, tfiles) => some (pin_env_files pinC source tfiles)
    else
      some (source, [])

/-- Lines 101-107: the new version — the source's explicit version under
static versioning, else baseline-as-integer plus one, else 1.  `none` is the
`ValueError` raised by `int()` on a non-numeric baseline. -/
def compute_new_version (mainV relV : Option String) : Option String :=
  if truthy mainV then mainV
  else if truthy relV then
    (parse_int (versionStr relV)).map fun n => toString (n + 1)
  else some "1"

/-- Lines 98-114: promote the staged tree `tempF` to the output directory,
compute the new version, copy the clean source spec over the output spec,
and rewrite its version field. -/
def finish_promote (cfgFileName : String) (sep : Bool) (fs : FS)
    (cfg : AssetConfigData) (release_version : Option String)
    (tempF : Tree) (evs : List Event) : Option UAResult :=
  match compute_new_version cfg.version release_version with
  | none => none
  | some new_version =>
    match lookupFile fs.source cfg.specName with
    | none => none
    | some srcSpec =>
      let out2 := setFile tempF cfg.specName srcSpec
      match loadAssetConfig out2 cfgFileName with
      | none => none
      | some outCfg =>
        match update_spec out2 outCfg.specName (some new_version) with
        | none => none
        | some out3 =>
          some ⟨some new_version, fs.copy_replace_dir sep out3,
                evs ++ [.copyReplaceDir, .copySpecToOutput, .updateOutputSpec new_version]⟩

/-- Lines 83-114: the scratch-directory phase — stage, optionally stamp the
scratch spec with the release version and compare against the release tree,
then promote. -/
def stage_and_finish (pinC : FileContent → FileContent) (cfgFileName : String)
    (sep : Bool) (fs : FS) (cfg : AssetConfigData)
    (release_version : Option String) (check_contents : Bool)
    (rel : Option Tree) : Option UAResult :=
  match stage_temp pinC cfgFileName fs.source with
  | none => none
  | some (temp1, pins) =>
    if check_contents then
      match rel with
      | none => none
      | some relT =>
        match update_spec temp1 cfg.specName release_version with
        | none => none
        | some temp2 =>
          if are_dir_trees_equal temp2 relT then
            some ⟨none, fs, pins ++ [.stampTemp release_version, .compareDirs true]⟩
          else
            finish_promote cfgFileName sep fs cfg release_version temp2
              (pins ++ [.stampTemp release_version, .compareDirs false])
    else
      finish_promote cfgFileName sep fs cfg release_version temp1 pins

/-- Lines 76-81 followed by the scratch phase: verify the release tag built
from the release counterpart's config, warn and skip when absent. -/
def check_tag_and_stage (pinC : FileContent → FileContent) (tags : List String)
    (cfgFileName : String) (sep : Bool) (fs : FS) (cfg relCfg : AssetConfigData)
    (release_version : Option String) (check_contents : Bool)
    (rel : Tree) : Option UAResult :=
  if release_tag_exists tags relCfg then
    stage_and_finish pinC cfgFileName sep fs cfg release_version check_contents (some rel)
  else
    some ⟨none, fs, [.warnUnreleased relCfg.type.value relCfg.name release_version]⟩

/-- `update_asset` (lines 36-114).  `sep` records whether a distinct
`output_directory_root` was given. -/
def update_asset (pinC : FileContent → FileContent) (tags : List String)
    (cfgFileName : String) (copyOnly : Bool) (sep : Bool) (fs : FS) :
    Option UAResult :=
  match loadAssetConfig fs.source cfgFileName with
  | none => none
  | some cfg =>
    if copyOnly then
      -- lines 50-53: copy the source directory, return the source Spec version
      match loadSpec fs.source cfg.specName with
      | none => none
      | some (sv, _) =>
        some ⟨sv, fs.copy_replace_dir sep fs.source, [.copyReplaceDir]⟩
    else
      match fs.release with
      | some rel =>
        match loadAssetConfig rel cfgFileName with
        | none => none
        | some relCfg =>
          if truthy cfg.version then
            -- lines 64-69: explicit (static) versioning — compare versions
            if cfg.version = relCfg.version then
              some ⟨none, fs, []⟩
            else
              check_tag_and_stage pinC tags cfgFileName sep fs cfg relCfg
                relCfg.version false rel
          else
            -- lines 70-74: dynamic versioning — baseline from the release Spec
            match loadSpec rel relCfg.specName with
            | none => none
            | some (rsv, _) =>
              check_tag_and_stage pinC tags cfgFileName sep fs cfg relCfg
                rsv true rel
      | none =>
        stage_and_finish pinC cfgFileName sep fs cfg none false none

/-- The walker's running aggregates (lines 122-125): per-asset final
filesystems, printed per-asset lines, counts, and the insertion-ordered
deduplicated list standing for the Python set `updated_os`. -/
structure WalkState where
  fss : List FS
  printed : List String
  assetCount : Nat
  updatedCount : Nat
  updatedOs : List String
deriving DecidableEq

/-- Set insertion (`updated_os.add`), kept in first-insertion order. -/
def insertNew (l : List String) (x : String) : List String :=
  if x ∈ l then l else l ++ [x]

/-- The per-asset "Updated {type} {name} to version {version}" line. -/
def updated_line (cfg : AssetConfigData) (ret : Option String) : String :=
  "Updated " ++ cfg.type.value ++ " " ++ cfg.name ++
    " to version " ++ versionStr ret

/-- Lines 128-147: process one discovered asset and fold it into the
aggregates.  A raised exception (none) aborts the whole traversal. -/
def process_asset (pinC : FileContent → FileContent) (tags : List String)
    (cfgFileName : String) (copyOnly : Bool) (sep : Bool)
    (st : WalkState) (fs : FS) : Option WalkState :=
  match loadAssetConfig fs.source cfgFileName with
  | none => none
  | some cfg =>
    match update_asset pinC tags cfgFileName copyOnly sep fs with
    | none => none
    | some r =>
      if truthy r.ret then
        if cfg.type = .environment then
          match cfg.extraCfgName with
          | none => none
          | some ecn =>
            match loadEnvConfig fs.source ecn with
            | none => none
            | some (osTag, _) =>
              some { fss := st.fss ++ [r.fs],
                     printed := st.printed ++ [updated_line cfg r.ret],
                     assetCount := st.assetCount + 1,
                     updatedCount := st.updatedCount + 1,
                     updatedOs := insertNew st.updatedOs osTag }
        else
          some { fss := st.fss ++ [r.fs],
                 printed := st.printed ++ [updated_line cfg r.ret],
                 assetCount := st.assetCount + 1,
                 updatedCount := st.updatedCount + 1,
                 updatedOs := st.updatedOs }
      else
        some { fss := st.fss ++ [r.fs],
               printed := st.printed,
               assetCount := st.assetCount + 1,
               updatedCount := st.updatedCount,
               updatedOs := st.updatedOs }

/-- The walker's loop over the discovered assets, in discovery order. -/
def update_assets_go (pinC : FileContent → FileContent) (tags : List String)
    (cfgFileName : String) (copyOnly : Bool) (sep : Bool) :
    List FS → WalkState → Option WalkState
  | [], st => some st
  | fs :: rest, st =>
    match process_asset pinC tags cfgFileName copyOnly sep st fs with
    | none => none
    | some st2 => update_assets_go pinC tags cfgFileName copyOnly sep rest st2

/-- Everything `update_assets` leaves behind: the aggregates, the final
summary line, and the two CI output variables. -/
structure WalkResult where
  fss : List FS
  printed : List String
  assetCount : Nat
  updatedCount : Nat
  updatedOs : List String
  summary : String
  has_updates : String
  env_os_updates : String
deriving DecidableEq

/-- `update_assets` (lines 117-152) over the discovered assets, each carrying
its own per-asset filesystem view.  The Python set `updated_os` is joined in
first-insertion order (its iteration order is unspecified in Python; the
embedding fixes one order). -/
def update_assets (pinC : FileContent → FileContent) (tags : List String)
    (cfgFileName : String) (copyOnly : Bool) (sep : Bool)
    (entries : List FS) : Option WalkResult :=
  match update_assets_go pinC tags cfgFileName copyOnly sep entries
      ⟨[], [], 0, 0, []⟩ with
  | none => none
  | some st =>
    some { fss := st.fss, printed := st.printed,
           assetCount := st.assetCount, updatedCount := st.updatedCount,
           updatedOs := st.updatedOs,
           summary := toString st.updatedCount ++ " of " ++
             toString st.assetCount ++ " asset(s) updated",
           has_updates := if st.updatedCount > 0 then "true" else "false",
           env_os_updates := String.intercalate "," st.updatedOs }

/-- Whether the walker counts this asset as updated: its run returned a
truthy (non-None, non-empty) version (line 138). -/
def asset_updated (pinC : FileContent → FileContent) (tags : List String)
    (cfgFileName : String) (copyOnly sep : Bool) (fs : FS) : Bool :=
  match update_asset pinC tags cfgFileName copyOnly sep fs with
  | some r => truthy r.ret
  | none => false

/-- This asset was counted as updated, is ENVIRONMENT-typed, and its source
environment config carries the OS tag `o` (lines 143-145). -/
def updated_env_os (pinC : FileContent → FileContent) (tags : List String)
    (cfgFileName : String) (copyOnly sep : Bool) (fs : FS) (o : String) : Prop :=
  asset_updated pinC tags cfgFileName copyOnly sep fs = true ∧
  ∃ cfg ecn tf, loadAssetConfig fs.source cfgFileName = some cfg ∧
    cfg.type = .environment ∧ cfg.extraCfgName = some ecn ∧
    loadEnvConfig fs.source ecn = some (o, tf)

/-! Concrete sample assets used to instantiate the general theorems. -/

/-- A dynamically-versioned image asset. -/
def demoSrcDyn : Tree :=
  [("asset.yaml", .assetCfg .image "foo" none "spec.yaml" none),
   ("spec.yaml", .specFile (some "9") "b"),
   ("Dockerfile", .raw "x")]

/-- Its release counterpart, recorded at version 2, same pinned content. -/
def demoRelDyn : Tree :=
  [("asset.yaml", .assetCfg .image "foo" none "spec.yaml" none),
   ("spec.yaml", .specFile (some "2") "b"),
   ("Dockerfile", .raw "x")]

def demoFSDyn : FS := ⟨demoSrcDyn, some demoRelDyn, none⟩

/-- The same dynamic asset with changed content. -/
def demoSrcDyn2 : Tree :=
  [("asset.yaml", .assetCfg .image "foo" none "spec.yaml" none),
   ("spec.yaml", .specFile (some "9") "b"),
   ("Dockerfile", .raw "y")]

def demoFSDyn2 : FS := ⟨demoSrcDyn2, some demoRelDyn, none⟩

/-- A statically-versioned asset whose release counterpart carries the same
version. -/
def demoSrcStatic : Tree :=
  [("asset.yaml", .assetCfg .image "foo" (some "5") "spec.yaml" none),
   ("spec.yaml", .specFile (some "5") "b")]

def demoFSStatic : FS := ⟨demoSrcStatic, some demoSrcStatic, none⟩

/-- A brand-new ENVIRONMENT asset with one present and one missing declared
template file. -/
def demoEnvSrc : Tree :=
  [("asset.yaml", .assetCfg .environment "env1" none "spec.yaml" (some "env.yaml")),
   ("env.yaml", .envCfg "linux" ["Dockerfile", "missing.txt"]),
   ("spec.yaml", .specFile (some "7") "sb"),
   ("Dockerfile", .raw "FROM base")]

def demoFSEnvNew : FS := ⟨demoEnvSrc, none, none⟩

/-- A concrete pinning transform for the samples. -/
def demoPin : FileContent → FileContent
  | .raw s => .raw (s ++ "@pinned")
  | c => c

/-- An asset whose source Spec holds the empty version string. -/
def demoSrcEmptyV : Tree :=
  [("asset.yaml", .assetCfg .image "bar" none "spec.yaml" none),
   ("spec.yaml", .specFile (some "") "b")]

def demoFSEmptyV : FS := ⟨demoSrcEmptyV, none, none⟩

/-! Helper lemmas about the filesystem operations. -/

theorem lookupFile_setFile_self (t : Tree) (p : String) (c : FileContent) :
    lookupFile (setFile t p c) p = some c := by
  induction t with
  | nil => simp [setFile, lookupFile]
  | cons hd tl ih =>
    obtain ⟨q, d⟩ := hd
    by_cases h : q = p
    · simp [setFile, lookupFile, h]
    · simp [setFile, lookupFile, h, ih]

theorem lookupFile_setFile_ne (t : Tree) (p q : String) (c : FileContent)
    (h : q ≠ p) : lookupFile (setFile t p c) q = lookupFile t q := by
  induction t with
  | nil => simp [setFile, lookupFile, Ne.symm h]
  | cons hd tl ih =>
    obtain ⟨r, d⟩ := hd
    by_cases hr : r = p
    · subst hr
      simp [setFile, lookupFile, Ne.symm h]
    · simp [setFile, lookupFile, hr, ih]

theorem setFile_setFile (t : Tree) (p : String) (a b : FileContent) :
    setFile (setFile t p a) p b = setFile t p b := by
  induction t with
  | nil => simp [setFile]
  | cons hd tl ih =>
    obtain ⟨q, d⟩ := hd
    by_cases h : q = p
    · simp [setFile, h]
    · simp [setFile, h, ih]

theorem isSome_lookupFile_setFile (t : Tree) (p q : String) (c : FileContent)
    (h : (lookupFile t p).isSome) :
    (lookupFile (setFile t p c) q).isSome = (lookupFile t q).isSome := by
  by_cases hq : q = p
  · subst hq
    rw [lookupFile_setFile_self]
    exact (Option.isSome_some).symm ▸ h.symm
  · rw [lookupFile_setFile_ne _ _ _ _ hq]

theorem pin_env_files_fst_lookup (pinC : FileContent → FileContent)
    (files : List String) : ∀ (t : Tree) (q : String), q ∉ files →
    lookupFile (pin_env_files pinC t files).1 q = lookupFile t q := by
  induction files with
  | nil => intro t q _; rfl
  | cons f rest ih =>
    intro t q hq
    simp only [List.mem_cons, not_or] at hq
    obtain ⟨hqf, hqrest⟩ := hq
    unfold pin_env_files
    cases hlf : lookupFile t f with
    | some c =>
      simp only []
      rw [ih _ _ hqrest, lookupFile_setFile_ne _ _ _ _ hqf]
    | none =>
      simp only []
      exact ih _ _ hqrest

theorem pin_env_files_trace (pinC : FileContent → FileContent)
    (files : List String) : ∀ t : Tree,
    (pin_env_files pinC t files).2 =
      files.map fun f =>
        if (lookupFile t f).isSome then Event.pinFile f
        else Event.warnPinMissing f := by
  induction files with
  | nil => intro t; rfl
  | cons f rest ih =>
    intro t
    unfold pin_env_files
    cases hlf : lookupFile t f with
    | some c =>
      simp only [List.map_cons, hlf, Option.isSome_some, if_true]
      rw [ih]
      refine congrArg _ (List.map_congr_left fun g _ => ?_)
      rw [isSome_lookupFile_setFile _ _ _ _ (by rw [hlf]; rfl)]
    | none =>
      simp only [List.map_cons, hlf, Option.isSome_none, Bool.false_eq_true,
        if_false]
      rw [ih]

theorem are_dir_trees_equal_refl (t : Tree) : are_dir_trees_equal t t = true := by
  unfold are_dir_trees_equal
  simp

/-! Inversion lemmas decomposing a successful `update_asset` run. -/

theorem finish_promote_inv {cfgFileName : String} {sep : Bool} {fs : FS}
    {cfg : AssetConfigData} {relv : Option String} {tempF : Tree}
    {evs : List Event} {r : UAResult}
    (h : finish_promote cfgFileName sep fs cfg relv tempF evs = some r) :
    ∃ nv srcSpec outCfg out3,
      compute_new_version cfg.version relv = some nv ∧
      lookupFile fs.source cfg.specName = some srcSpec ∧
      loadAssetConfig (setFile tempF cfg.specName srcSpec) cfgFileName = some outCfg ∧
      update_spec (setFile tempF cfg.specName srcSpec) outCfg.specName (some nv) = some out3 ∧
      r = ⟨some nv, fs.copy_replace_dir sep out3,
           evs ++ [.copyReplaceDir, .copySpecToOutput, .updateOutputSpec nv]⟩ := by
  unfold finish_promote at h
  cases hnv : compute_new_version cfg.version relv with
  | none => rw [hnv] at h; exact absurd h (by simp)
  | some nv =>
    rw [hnv] at h
    simp only [] at h
    cases hsrc : lookupFile fs.source cfg.specName with
    | none => rw [hsrc] at h; exact absurd h (by simp)
    | some srcSpec =>
      rw [hsrc] at h
      simp only [] at h
      cases hoc : loadAssetConfig (setFile tempF cfg.specName srcSpec) cfgFileName with
      | none => rw [hoc] at h; exact absurd h (by simp)
      | some outCfg =>
        rw [hoc] at h
        simp only [] at h
        cases hus : update_spec (setFile tempF cfg.specName srcSpec) outCfg.specName (some nv) with
        | none => rw [hus] at h; exact absurd h (by simp)
        | some out3 =>
          rw [hus] at h
          simp only [Option.some_inj] at h
          exact ⟨nv, srcSpec, outCfg, out3, rfl, rfl, hoc, hus, h.symm⟩

theorem stage_and_finish_inv {pinC : FileContent → FileContent}
    {cfgFileName : String} {sep : Bool} {fs : FS} {cfg : AssetConfigData}
    {relv : Option String} {chk : Bool} {rel : Option Tree} {r : UAResult}
    (h : stage_and_finish pinC cfgFileName sep fs cfg relv chk rel = some r) :
    ∃ temp1 pins, stage_temp pinC cfgFileName fs.source = some (temp1, pins) ∧
      ((chk = false ∧
         finish_promote cfgFileName sep fs cfg relv temp1 pins = some r) ∨
       (chk = true ∧ ∃ relT temp2, rel = some relT ∧
          update_spec temp1 cfg.specName relv = some temp2 ∧
          ((are_dir_trees_equal temp2 relT = true ∧
             r = ⟨none, fs, pins ++ [.stampTemp relv, .compareDirs true]⟩) ∨
           (are_dir_trees_equal temp2 relT = false ∧
             finish_promote cfgFileName sep fs cfg relv temp2
               (pins ++ [.stampTemp relv, .compareDirs false]) = some r)))) := by
  unfold stage_and_finish at h
  cases hst : stage_temp pinC cfgFileName fs.source with
  | none => rw [hst] at h; exact absurd h (by simp)
  | some tp =>
    obtain ⟨temp1, pins⟩ := tp
    rw [hst] at h
    simp only [] at h
    refine ⟨temp1, pins, rfl, ?_⟩
    cases chk with
    | false =>
      simp only [Bool.false_eq_true, if_false] at h
      exact Or.inl ⟨rfl, h⟩
    | true =>
      simp only [if_true] at h
      cases rel with
      | none => exact absurd h (by simp)
      | some relT =>
        simp only [] at h
        cases hup : update_spec temp1 cfg.specName relv with
        | none => rw [hup] at h; exact absurd h (by simp)
        | some temp2 =>
          rw [hup] at h
          simp only [] at h
          refine Or.inr ⟨rfl, relT, temp2, rfl, rfl, ?_⟩
          cases heq : are_dir_trees_equal temp2 relT with
          | true =>
            rw [heq] at h
            simp only [if_true, Option.some_inj] at h
            exact Or.inl ⟨rfl, h.symm⟩
          | false =>
            rw [heq] at h
            simp only [Bool.false_eq_true, if_false] at h
            exact Or.inr ⟨rfl, h⟩

theorem check_tag_and_stage_inv {pinC : FileContent → FileContent}
    {tags : List String} {cfgFileName : String} {sep : Bool} {fs : FS}
    {cfg relCfg : AssetConfigData} {relv : Option String} {chk : Bool}
    {rel : Tree} {r : UAResult}
    (h : check_tag_and_stage pinC tags cfgFileName sep fs cfg relCfg relv chk rel = some r) :
    (release_tag_exists tags relCfg = false ∧
      r = ⟨none, fs, [.warnUnreleased relCfg.type.value relCfg.name relv]⟩) ∨
    (release_tag_exists tags relCfg = true ∧
      stage_and_finish pinC cfgFileName sep fs cfg relv chk (some rel) = some r) := by
  unfold check_tag_and_stage at h
  cases htag : release_tag_exists tags relCfg with
  | false =>
    rw [htag] at h
    simp only [Bool.false_eq_true, if_false, Option.some_inj] at h
    exact Or.inl ⟨rfl, h.symm⟩
  | true =>
    rw [htag] at h
    simp only [if_true] at h
    exact Or.inr ⟨rfl, h⟩

theorem update_asset_inv {pinC : FileContent → FileContent}
    {tags : List String} {cfgFileName : String} {sep : Bool} {fs : FS}
    {r : UAResult}
    (h : update_asset pinC tags cfgFileName false sep fs = some r) :
    ∃ cfg, loadAssetConfig fs.source cfgFileName = some cfg ∧
      ((fs.release = none ∧
         stage_and_finish pinC cfgFileName sep fs cfg none false none = some r) ∨
       (∃ rel relCfg, fs.release = some rel ∧
         loadAssetConfig rel cfgFileName = some relCfg ∧
         ((truthy cfg.version = true ∧ cfg.version = relCfg.version ∧
            r = ⟨none, fs, []⟩) ∨
          (truthy cfg.version = true ∧ cfg.version ≠ relCfg.version ∧
            check_tag_and_stage pinC tags cfgFileName sep fs cfg relCfg
              relCfg.version false rel = some r) ∨
          (truthy cfg.version = false ∧ ∃ rsv rb,
            loadSpec rel relCfg.specName = some (rsv, rb) ∧
            check_tag_and_stage pinC tags cfgFileName sep fs cfg relCfg
              rsv true rel = some r)))) := by
  unfold update_asset at h
  cases hcfg : loadAssetConfig fs.source cfgFileName with
  | none => rw [hcfg] at h; exact absurd h (by simp)
  | some cfg =>
    rw [hcfg] at h
    simp only [Bool.false_eq_true, if_false] at h
    refine ⟨cfg, rfl, ?_⟩
    cases hrel : fs.release with
    | none =>
      rw [hrel] at h
      simp only [] at h
      exact Or.inl ⟨rfl, h⟩
    | some rel =>
      rw [hrel] at h
      simp only [] at h
      cases hrc : loadAssetConfig rel cfgFileName with
      | none => rw [hrc] at h; exact absurd h (by simp)
      | some relCfg =>
        rw [hrc] at h
        simp only [] at h
        refine Or.inr ⟨rel, relCfg, rfl, hrc, ?_⟩
        cases hty : truthy cfg.version with
        | true =>
          rw [hty] at h
          simp only [if_true] at h
          by_cases hveq : cfg.version = relCfg.version
          · rw [if_pos hveq] at h
            simp only [Option.some_inj] at h
            exact Or.inl ⟨rfl, hveq, h.symm⟩
          · rw [if_neg hveq] at h
            exact Or.inr (Or.inl ⟨rfl, hveq, h⟩)
        | false =>
          rw [hty] at h
          simp only [Bool.false_eq_true, if_false] at h
          cases hrs : loadSpec rel relCfg.specName with
          | none => rw [hrs] at h; exact absurd h (by simp)
          | some rsvb =>
            obtain ⟨rsv, rb⟩ := rsvb
            rw [hrs] at h
            simp only [] at h
            exact Or.inr (Or.inr ⟨rfl, rsv, rb, rfl, h⟩)

theorem outputDir_copy_replace_dir (fs : FS) (sep : Bool) (t : Tree) :
    (fs.copy_replace_dir sep t).outputDir sep = some t := by
  cases sep <;> simp [FS.copy_replace_dir, FS.outputDir]

theorem loadAssetConfig_inv {t : Tree} {f : String} {cfg : AssetConfigData}
    (h : loadAssetConfig t f = some cfg) :
    lookupFile t f =
      some (.assetCfg cfg.type cfg.name cfg.version cfg.specName cfg.extraCfgName) := by
  unfold loadAssetConfig at h
  cases hl : lookupFile t f with
  | none => rw [hl] at h; exact absurd h (by simp)
  | some c =>
    rw [hl] at h
    cases c with
    | assetCfg ty n ver s e =>
      simp only [Option.some_inj] at h
      rw [← h]
    | specFile v b => exact absurd h (by simp)
    | envCfg o fl => exact absurd h (by simp)
    | raw s => exact absurd h (by simp)

theorem update_spec_inv {t : Tree} {p : String} {v : Option String} {t2 : Tree}
    (h : update_spec t p v = some t2) :
    ∃ vOld b, lookupFile t p = some (.specFile vOld b) ∧
      t2 = setFile t p (.specFile v b) := by
  unfold update_spec at h
  cases hl : lookupFile t p with
  | none => rw [hl] at h; exact absurd h (by simp)
  | some c =>
    rw [hl] at h
    cases c with
    | assetCfg ty n ver s e => exact absurd h (by simp)
    | specFile vOld b =>
      simp only [Option.some_inj] at h
      exact ⟨vOld, b, rfl, h.symm⟩
    | envCfg o fl => exact absurd h (by simp)
    | raw s => exact absurd h (by simp)

/-- A successful promotion whose staged tree still holds the source's config
file leaves the output at the clean source spec body stamped with exactly
the new version. -/
theorem finish_promote_clean_spec {cfgFileName : String} {sep : Bool} {fs : FS}
    {cfg : AssetConfigData} {relv : Option String} {tempF : Tree}
    {evs : List Event} {r : UAResult} {sv0 : Option String} {sbody : String}
    (hfp : finish_promote cfgFileName sep fs cfg relv tempF evs = some r)
    (hcfgc : lookupFile tempF cfgFileName = lookupFile fs.source cfgFileName)
    (hcfg : loadAssetConfig fs.source cfgFileName = some cfg)
    (hne : cfg.specName ≠ cfgFileName)
    (hsrcspec : lookupFile fs.source cfg.specName = some (.specFile sv0 sbody)) :
    ∃ nv, compute_new_version cfg.version relv = some nv ∧
      r = ⟨some nv,
        fs.copy_replace_dir sep
          (setFile tempF cfg.specName (.specFile (some nv) sbody)),
        evs ++ [.copyReplaceDir, .copySpecToOutput, .updateOutputSpec nv]⟩ := by
  obtain ⟨nv, srcSpec, outCfg, out3, hnv, hsrc, hoc, hus, hr⟩ := finish_promote_inv hfp
  rw [hsrcspec] at hsrc
  obtain rfl : FileContent.specFile sv0 sbody = srcSpec := Option.some_inj.mp hsrc
  have hl1 : lookupFile (setFile tempF cfg.specName (.specFile sv0 sbody)) cfgFileName =
      lookupFile fs.source cfgFileName := by
    rw [lookupFile_setFile_ne _ _ _ _ (Ne.symm hne)]
    exact hcfgc
  have hcfg2 : loadAssetConfig
      (setFile tempF cfg.specName (.specFile sv0 sbody)) cfgFileName = some cfg := by
    unfold loadAssetConfig
    rw [hl1]
    exact hcfg
  rw [hcfg2] at hoc
  obtain rfl : cfg = outCfg := Option.some_inj.mp hoc
  unfold update_spec at hus
  rw [lookupFile_setFile_self] at hus
  simp only [Option.some_inj] at hus
  rw [setFile_setFile] at hus
  subst hus
  exact ⟨nv, hnv, hr⟩

/-! The claims. -/

/-- C7: for every ENVIRONMENT-type asset, staging applies the pin-versions
transform to each declared template file that exists and, for each declared
template file that is missing, records a warning and skips it without
raising, continuing with the remaining files in order. -/
theorem env_staging_pins_existing_warns_missing
    (pinC : FileContent → FileContent) (cfgFileName : String) (source : Tree)
    (cfg : AssetConfigData) (ecn osTag : String) (tfiles : List String)
    (hcfg : loadAssetConfig source cfgFileName = some cfg)
    (hty : cfg.type = .environment)
    (hec : cfg.extraCfgName = some ecn)
    (hev : loadEnvConfig source ecn = some (osTag, tfiles)) :
    stage_temp pinC cfgFileName source =
      some ((pin_env_files pinC source tfiles).1,
        tfiles.map fun f =>
          if (lookupFile source f).isSome then Event.pinFile f
          else Event.warnPinMissing f) := by
  unfold stage_temp
  rw [hcfg]
  simp only [hty, if_true, hec, hev]
  rw [← pin_env_files_trace]

/-- Witness for C7 on the sample environment asset: the present Dockerfile is
pinned, the missing declared file only draws a warning. -/
theorem env_staging_pins_existing_warns_missing_witness :
    stage_temp demoPin "asset.yaml" demoEnvSrc =
      some ((pin_env_files demoPin demoEnvSrc ["Dockerfile", "missing.txt"]).1,
        (["Dockerfile", "missing.txt"] : List String).map fun f =>
          if (lookupFile demoEnvSrc f).isSome then Event.pinFile f
          else Event.warnPinMissing f) :=
  env_staging_pins_existing_warns_missing demoPin "asset.yaml" demoEnvSrc
    ⟨.environment, "env1", none, "spec.yaml", some "env.yaml"⟩
    "env.yaml" "linux" ["Dockerfile", "missing.txt"]
    (by decide) rfl rfl (by decide)

/-- C5: with `copy_only` set, `update_asset` unconditionally copies the
source asset directory over the output directory and returns the version
read from the source's own Spec; the trace holds nothing but that one copy —
no tag lookup, no counterpart load, no comparison, no pinning. -/
theorem copy_only_copies_and_returns_spec_version
    (pinC : FileContent → FileContent) (tags : List String)
    (cfgFileName : String) (sep : Bool) (fs : FS)
    (cfg : AssetConfigData) (sv : Option String) (b : String)
    (hcfg : loadAssetConfig fs.source cfgFileName = some cfg)
    (hspec : loadSpec fs.source cfg.specName = some (sv, b)) :
    update_asset pinC tags cfgFileName true sep fs =
      some ⟨sv, fs.copy_replace_dir sep fs.source, [.copyReplaceDir]⟩ := by
  unfold update_asset
  rw [hcfg]
  simp [hspec]

/-- Witness for C5 on the sample dynamic asset. -/
theorem copy_only_copies_and_returns_spec_version_witness :
    update_asset id [] "asset.yaml" true false demoFSDyn =
      some ⟨some "9", FS.copy_replace_dir demoFSDyn false demoFSDyn.source,
        [.copyReplaceDir]⟩ :=
  copy_only_copies_and_returns_spec_version id [] "asset.yaml" false demoFSDyn
    ⟨.image, "foo", none, "spec.yaml", none⟩ (some "9") "b"
    (by decide) (by decide)

/-- C4: a statically-versioned asset whose release counterpart records the
same version yields `None` immediately, with an empty trace (no content
comparison, no write) and an unchanged filesystem. -/
theorem static_same_version_no_update
    (pinC : FileContent → FileContent) (tags : List String)
    (cfgFileName : String) (sep : Bool) (fs : FS)
    (cfg relCfg : AssetConfigData) (mv : String) (rel : Tree)
    (hcfg : loadAssetConfig fs.source cfgFileName = some cfg)
    (hst : cfg.version = some mv) (hmv : mv ≠ "")
    (hrel : fs.release = some rel)
    (hrc : loadAssetConfig rel cfgFileName = some relCfg)
    (hveq : relCfg.version = some mv) :
    update_asset pinC tags cfgFileName false sep fs = some ⟨none, fs, []⟩ := by
  unfold update_asset
  rw [hcfg]
  simp only [Bool.false_eq_true, if_false]
  rw [hrel]
  simp [hrc, truthy, hst, hveq, hmv]

/-- Witness for C4 on the sample static asset at version 5. -/
theorem static_same_version_no_update_witness :
    update_asset id [] "asset.yaml" false false demoFSStatic =
      some ⟨none, demoFSStatic, []⟩ :=
  static_same_version_no_update id [] "asset.yaml" false demoFSStatic
    ⟨.image, "foo", some "5", "spec.yaml", none⟩
    ⟨.image, "foo", some "5", "spec.yaml", none⟩
    "5" demoSrcStatic (by decide) rfl (by decide) rfl (by decide) rfl

/-- C3: a dynamically-versioned asset with an existing release counterpart
(whose tag check passes) has its scratch spec stamped with the release
counterpart's Spec version and is then compared against the counterpart; when
the trees are equal the run returns `None`, the filesystem is unchanged, and
the trace ends with the stamp followed by the comparison — no write events. -/
theorem dynamic_unchanged_no_update
    (pinC : FileContent → FileContent) (tags : List String)
    (cfgFileName : String) (sep : Bool) (fs : FS)
    (cfg relCfg : AssetConfigData) (rel : Tree) (rsv : Option String)
    (rb : String) (temp1 temp2 : Tree) (pins : List Event)
    (hcfg : loadAssetConfig fs.source cfgFileName = some cfg)
    (hdyn : cfg.version = none)
    (hrel : fs.release = some rel)
    (hrc : loadAssetConfig rel cfgFileName = some relCfg)
    (hrs : loadSpec rel relCfg.specName = some (rsv, rb))
    (htag : release_tag_exists tags relCfg = true)
    (hstage : stage_temp pinC cfgFileName fs.source = some (temp1, pins))
    (hstamp : update_spec temp1 cfg.specName rsv = some temp2)
    (heq : are_dir_trees_equal temp2 rel = true) :
    update_asset pinC tags cfgFileName false sep fs =
      some ⟨none, fs, pins ++ [.stampTemp rsv, .compareDirs true]⟩ := by
  unfold update_asset
  rw [hcfg]
  simp only [Bool.false_eq_true, if_false]
  rw [hrel]
  simp only [hrc, hdyn, truthy, Bool.false_eq_true, if_false, hrs]
  unfold check_tag_and_stage
  rw [htag]
  simp only [if_true]
  unfold stage_and_finish
  rw [hstage]
  simp only [if_true, hstamp, heq]

/-- Witness for C3 on the sample dynamic asset whose pinned content equals
its release counterpart recorded at version 2 (the tag the code consults for
a dynamic counterpart is built from its absent config version, i.e. "None"). -/
theorem dynamic_unchanged_no_update_witness :
    update_asset id ["refs/tags/image/foo/None"] "asset.yaml" false false demoFSDyn =
      some ⟨none, demoFSDyn, [.stampTemp (some "2"), .compareDirs true]⟩ :=
  dynamic_unchanged_no_update id ["refs/tags/image/foo/None"] "asset.yaml"
    false demoFSDyn
    ⟨.image, "foo", none, "spec.yaml", none⟩
    ⟨.image, "foo", none, "spec.yaml", none⟩
    demoRelDyn (some "2") "b" demoSrcDyn
    [("asset.yaml", .assetCfg .image "foo" none "spec.yaml" none),
     ("spec.yaml", .specFile (some "2") "b"),
     ("Dockerfile", .raw "x")] []
    (by decide) rfl rfl (by decide) (by decide) (by decide) (by decide)
    (by decide) (by decide)

/-- C1 is a code bug, demonstrated here: a dynamically-versioned asset whose
release counterpart's recorded (Spec) version 2 IS tagged, and whose content
differs from the counterpart.  The claim says the tag check targets the
recorded release version, so this asset should proceed; the code instead
builds the reference from the release counterpart's config version — absent
for dynamic assets, rendered "None" — finds it missing, warns (naming
version 2) and returns `None` without writing. -/
theorem release_tag_check_uses_config_version :
    release_tag_exists ["refs/tags/image/foo/2"]
      ⟨.image, "foo", none, "spec.yaml", none⟩ = false ∧
    List.contains ["refs/tags/image/foo/2"]
      (TAG (RELEASE_TAG_VERSION "image" "foo" "2")) = true ∧
    are_dir_trees_equal
      (setFile demoSrcDyn2 "spec.yaml" (.specFile (some "2") "b"))
      demoRelDyn = false ∧
    update_asset id ["refs/tags/image/foo/2"] "asset.yaml" false false demoFSDyn2 =
      some ⟨none, demoFSDyn2, [.warnUnreleased "image" "foo" (some "2")]⟩ := by
  decide

/-- C2: every promoted asset reports the source's explicit version verbatim
under static versioning; under dynamic versioning it reports the release
counterpart's baseline Spec version parsed as an integer plus one when a
counterpart exists, and "1" when none exists. -/
theorem promoted_version_rule
    (pinC : FileContent → FileContent) (tags : List String)
    (cfgFileName : String) (sep : Bool) (fs : FS)
    (cfg : AssetConfigData) (r : UAResult) (v : String)
    (hcfg : loadAssetConfig fs.source cfgFileName = some cfg)
    (h : update_asset pinC tags cfgFileName false sep fs = some r)
    (hv : r.ret = some v) :
    (truthy cfg.version = true → cfg.version = some v) ∧
    (truthy cfg.version = false → fs.release = none → v = "1") ∧
    (∀ rel relCfg rsv rb n, truthy cfg.version = false →
      fs.release = some rel →
      loadAssetConfig rel cfgFileName = some relCfg →
      loadSpec rel relCfg.specName = some (rsv, rb) →
      parse_int (versionStr rsv) = some n →
      v = toString (n + 1)) := by
  obtain ⟨cfg0, hcfg0, hbr⟩ := update_asset_inv h
  rw [hcfg] at hcfg0
  obtain rfl : cfg0 = cfg := (Option.some_inj.mp hcfg0).symm ▸ rfl
  rcases hbr with ⟨hreln, hsaf⟩ | ⟨rel, relCfg, hrel, hrc, hcase⟩
  · -- no release counterpart
    obtain ⟨temp1, pins, _, hfin⟩ := stage_and_finish_inv hsaf
    rcases hfin with ⟨_, hfp⟩ | ⟨hchk, _⟩
    · obtain ⟨nv, _, _, _, hnv, _, _, _, hr⟩ := finish_promote_inv hfp
      rw [hr] at hv
      simp only [Option.some_inj] at hv
      subst hv
      refine ⟨fun hty => ?_, fun hty _ => ?_, fun rel relCfg rsv rb n _ hrel _ _ _ => ?_⟩
      · simp only [compute_new_version, hty, eq_self_iff_true, if_true] at hnv
        exact hnv
      · rw [compute_new_version, hty] at hnv
        simp only [Bool.false_eq_true, if_false, truthy, Option.some_inj] at hnv
        exact hnv.symm
      · rw [hreln] at hrel
        exact absurd hrel (by simp)
    · exact absurd hchk (by simp)
  · rcases hcase with ⟨hty, hveq, hr⟩ | ⟨hty, hvne, hcts⟩ | ⟨hty, rsv, rb, hrs, hcts⟩
    · -- static, same version: returned None, contradicting hv
      rw [hr] at hv
      exact absurd hv (by simp)
    · -- static, version bump
      rcases check_tag_and_stage_inv hcts with ⟨_, hr⟩ | ⟨_, hsaf⟩
      · rw [hr] at hv
        exact absurd hv (by simp)
      · obtain ⟨temp1, pins, _, hfin⟩ := stage_and_finish_inv hsaf
        rcases hfin with ⟨_, hfp⟩ | ⟨hchk, _⟩
        · obtain ⟨nv, _, _, _, hnv, _, _, _, hr⟩ := finish_promote_inv hfp
          rw [hr] at hv
          simp only [Option.some_inj] at hv
          subst hv
          refine ⟨fun _ => ?_, fun htyf _ => ?_, fun _ _ _ _ _ htyf _ _ _ _ => ?_⟩
          · simp only [compute_new_version, hty, eq_self_iff_true, if_true] at hnv
            exact hnv
          · rw [hty] at htyf
            exact absurd htyf (by simp)
          · rw [hty] at htyf
            exact absurd htyf (by simp)
        · exact absurd hchk (by simp)
    · -- dynamic, counterpart exists
      rcases check_tag_and_stage_inv hcts with ⟨_, hr⟩ | ⟨_, hsaf⟩
      · rw [hr] at hv
        exact absurd hv (by simp)
      · obtain ⟨temp1, pins, _, hfin⟩ := stage_and_finish_inv hsaf
        rcases hfin with ⟨hchk, _⟩ | ⟨_, relT, temp2, _, _, hcmp⟩
        · exact absurd hchk (by simp)
        · rcases hcmp with ⟨_, hr⟩ | ⟨_, hfp⟩
          · rw [hr] at hv
            exact absurd hv (by simp)
          · obtain ⟨nv, _, _, _, hnv, _, _, _, hr⟩ := finish_promote_inv hfp
            rw [hr] at hv
            simp only [Option.some_inj] at hv
            subst hv
            refine ⟨fun htyt => ?_, fun _ hreln => ?_, ?_⟩
            · rw [hty] at htyt
              exact absurd htyt (by simp)
            · rw [hrel] at hreln
              exact absurd hreln (by simp)
            · intro rel1 relCfg1 rsv1 rb1 n _ hrel1 hrc1 hrs1 hparse
              rw [hrel] at hrel1
              obtain rfl : rel = rel1 := Option.some_inj.mp hrel1
              rw [hrc] at hrc1
              obtain rfl : relCfg = relCfg1 := Option.some_inj.mp hrc1
              rw [hrs] at hrs1
              obtain ⟨rfl, rfl⟩ : rsv = rsv1 ∧ rb = rb1 := by
                have := Option.some_inj.mp hrs1
                exact ⟨congrArg Prod.fst this, congrArg Prod.snd this⟩
              rw [compute_new_version, hty] at hnv
              simp only [Bool.false_eq_true, if_false] at hnv
              cases rsv with
              | none =>
                rw [show parse_int (versionStr none) = none by decide] at hparse
                exact absurd hparse (by simp)
              | some s =>
                by_cases hse : s = ""
                · subst hse
                  rw [show parse_int (versionStr (some "")) = none by decide] at hparse
                  exact absurd hparse (by simp)
                · have htr : truthy (some s) = true := by simp [truthy, hse]
                  rw [htr] at hnv
                  simp only [eq_self_iff_true, if_true, hparse, Option.map_some',
                    Option.some_inj] at hnv
                  exact hnv.symm

/-- Witness for C2: the sample dynamic asset with changed content and a
counterpart recorded at baseline 2 (the code's tag check for it passes via
the "None" reference) reports version 3 = 2 + 1. -/
theorem promoted_version_rule_witness :
    (truthy (AssetConfigData.version ⟨.image, "foo", none, "spec.yaml", none⟩) = true →
      AssetConfigData.version ⟨.image, "foo", none, "spec.yaml", none⟩ = some "3") ∧
    (truthy (AssetConfigData.version ⟨.image, "foo", none, "spec.yaml", none⟩) = false →
      demoFSDyn2.release = none → "3" = "1") ∧
    (∀ rel relCfg rsv rb n,
      truthy (AssetConfigData.version ⟨.image, "foo", none, "spec.yaml", none⟩) = false →
      demoFSDyn2.release = some rel →
      loadAssetConfig rel "asset.yaml" = some relCfg →
      loadSpec rel relCfg.specName = some (rsv, rb) →
      parse_int (versionStr rsv) = some n →
      "3" = toString (n + 1)) :=
  promoted_version_rule id ["refs/tags/image/foo/None"] "asset.yaml" false
    demoFSDyn2 ⟨.image, "foo", none, "spec.yaml", none⟩
    ⟨some "3",
     ⟨demoSrcDyn2,
      some [("asset.yaml", .assetCfg .image "foo" none "spec.yaml" none),
            ("spec.yaml", .specFile (some "3") "b"),
            ("Dockerfile", .raw "y")], none⟩,
     [.stampTemp (some "2"), .compareDirs false, .copyReplaceDir,
      .copySpecToOutput, .updateOutputSpec "3"]⟩
    "3" (by decide) (by decide) rfl

/-- C6: on every promotion the trace ends with the scratch-tree copy, then
the copy of the original unpinned source spec into the output, and only then
the rewrite of its version field; consequently the output directory's spec
file is the clean source spec body carrying exactly the new version — the
pinning transform is never applied to it. -/
theorem promoted_output_spec_clean
    (pinC : FileContent → FileContent) (tags : List String)
    (cfgFileName : String) (sep : Bool) (fs : FS)
    (cfg : AssetConfigData) (r : UAResult) (v : String)
    (temp1 : Tree) (pins : List Event) (sv0 : Option String) (sbody : String)
    (hcfg : loadAssetConfig fs.source cfgFileName = some cfg)
    (h : update_asset pinC tags cfgFileName false sep fs = some r)
    (hv : r.ret = some v)
    (hstage : stage_temp pinC cfgFileName fs.source = some (temp1, pins))
    (hkeep : lookupFile temp1 cfgFileName = lookupFile fs.source cfgFileName)
    (hne : cfg.specName ≠ cfgFileName)
    (hsrcspec : lookupFile fs.source cfg.specName = some (.specFile sv0 sbody)) :
    (∃ pre, r.trace =
        pre ++ [.copyReplaceDir, .copySpecToOutput, .updateOutputSpec v]) ∧
    (∃ outT, r.fs.outputDir sep = some outT ∧
      lookupFile outT cfg.specName = some (.specFile (some v) sbody)) := by
  obtain ⟨cfg0, hcfg0, hbr⟩ := update_asset_inv h
  rw [hcfg] at hcfg0
  obtain rfl : cfg = cfg0 := Option.some_inj.mp hcfg0
  have finish : ∀ (relv : Option String) (tempF : Tree) (evs : List Event),
      finish_promote cfgFileName sep fs cfg relv tempF evs = some r →
      lookupFile tempF cfgFileName = lookupFile fs.source cfgFileName →
      (∃ pre, r.trace =
          pre ++ [.copyReplaceDir, .copySpecToOutput, .updateOutputSpec v]) ∧
      (∃ outT, r.fs.outputDir sep = some outT ∧
        lookupFile outT cfg.specName = some (.specFile (some v) sbody)) := by
    intro relv tempF evs hfp hcfgc
    obtain ⟨nv, _, hr⟩ := finish_promote_clean_spec hfp hcfgc hcfg hne hsrcspec
    have hvv : nv = v := by
      rw [hr] at hv
      simpa using hv
    subst hvv
    refine ⟨⟨evs, by rw [hr]⟩,
      ⟨setFile tempF cfg.specName (.specFile (some nv) sbody), ?_, ?_⟩⟩
    · rw [hr]
      exact outputDir_copy_replace_dir fs sep _
    · exact lookupFile_setFile_self _ _ _
  rcases hbr with ⟨_, hsaf⟩ | ⟨rel, relCfg, hrel, hrc, hcase⟩
  · obtain ⟨temp1a, pinsa, hst, hfin⟩ := stage_and_finish_inv hsaf
    rw [hstage] at hst
    obtain ⟨rfl, rfl⟩ : temp1 = temp1a ∧ pins = pinsa := by
      have := Option.some_inj.mp hst
      exact ⟨congrArg Prod.fst this, congrArg Prod.snd this⟩
    rcases hfin with ⟨_, hfp⟩ | ⟨hchk, _⟩
    · exact finish _ _ _ hfp hkeep
    · exact absurd hchk (by simp)
  · rcases hcase with ⟨_, _, hr⟩ | ⟨_, _, hcts⟩ | ⟨_, rsv, rb, _, hcts⟩
    · rw [hr] at hv
      exact absurd hv (by simp)
    · rcases check_tag_and_stage_inv hcts with ⟨_, hr⟩ | ⟨_, hsaf⟩
      · rw [hr] at hv
        exact absurd hv (by simp)
      · obtain ⟨temp1a, pinsa, hst, hfin⟩ := stage_and_finish_inv hsaf
        rw [hstage] at hst
        obtain ⟨rfl, rfl⟩ : temp1 = temp1a ∧ pins = pinsa := by
          have := Option.some_inj.mp hst
          exact ⟨congrArg Prod.fst this, congrArg Prod.snd this⟩
        rcases hfin with ⟨_, hfp⟩ | ⟨hchk, _⟩
        · exact finish _ _ _ hfp hkeep
        · exact absurd hchk (by simp)
    · rcases check_tag_and_stage_inv hcts with ⟨_, hr⟩ | ⟨_, hsaf⟩
      · rw [hr] at hv
        exact absurd hv (by simp)
      · obtain ⟨temp1a, pinsa, hst, hfin⟩ := stage_and_finish_inv hsaf
        rw [hstage] at hst
        obtain ⟨rfl, rfl⟩ : temp1 = temp1a ∧ pins = pinsa := by
          have := Option.some_inj.mp hst
          exact ⟨congrArg Prod.fst this, congrArg Prod.snd this⟩
        rcases hfin with ⟨hchk, _⟩ | ⟨_, relT, temp2, _, hup, hcmp⟩
        · exact absurd hchk (by simp)
        · rcases hcmp with ⟨_, hr⟩ | ⟨_, hfp⟩
          · rw [hr] at hv
            exact absurd hv (by simp)
          · obtain ⟨vOld, b1, _, rfl⟩ := update_spec_inv hup
            refine finish _ _ _ hfp ?_
            rw [lookupFile_setFile_ne _ _ _ _ (Ne.symm hne)]
            exact hkeep

/-- Witness for C6 on the sample dynamic asset with changed content promoted
to version 3. -/
theorem promoted_output_spec_clean_witness :
    (∃ pre, UAResult.trace
        ⟨some "3",
         ⟨demoSrcDyn2,
          some [("asset.yaml", .assetCfg .image "foo" none "spec.yaml" none),
                ("spec.yaml", .specFile (some "3") "b"),
                ("Dockerfile", .raw "y")], none⟩,
         [.stampTemp (some "2"), .compareDirs false, .copyReplaceDir,
          .copySpecToOutput, .updateOutputSpec "3"]⟩ =
        pre ++ [.copyReplaceDir, .copySpecToOutput, .updateOutputSpec "3"]) ∧
    (∃ outT, FS.outputDir
        (UAResult.fs ⟨some "3",
         ⟨demoSrcDyn2,
          some [("asset.yaml", .assetCfg .image "foo" none "spec.yaml" none),
                ("spec.yaml", .specFile (some "3") "b"),
                ("Dockerfile", .raw "y")], none⟩,
         [.stampTemp (some "2"), .compareDirs false, .copyReplaceDir,
          .copySpecToOutput, .updateOutputSpec "3"]⟩) false = some outT ∧
      lookupFile outT "spec.yaml" = some (.specFile (some "3") "b")) :=
  promoted_output_spec_clean id ["refs/tags/image/foo/None"] "asset.yaml"
    false demoFSDyn2 ⟨.image, "foo", none, "spec.yaml", none⟩
    ⟨some "3",
     ⟨demoSrcDyn2,
      some [("asset.yaml", .assetCfg .image "foo" none "spec.yaml" none),
            ("spec.yaml", .specFile (some "3") "b"),
            ("Dockerfile", .raw "y")], none⟩,
     [.stampTemp (some "2"), .compareDirs false, .copyReplaceDir,
      .copySpecToOutput, .updateOutputSpec "3"]⟩
    "3" demoSrcDyn2 [] (some "9") "b"
    (by decide) (by decide) rfl (by decide) rfl (by decide) (by decide)

theorem mem_insertNew (l : List String) (x y : String) :
    y ∈ insertNew l x ↔ y ∈ l ∨ y = x := by
  unfold insertNew
  by_cases hx : x ∈ l
  · simp only [hx, if_true]
    constructor
    · exact Or.inl
    · rintro (h | rfl)
      · exact h
      · exact hx
  · simp [hx, List.mem_append]

theorem nodup_insertNew (l : List String) (x : String) (h : l.Nodup) :
    (insertNew l x).Nodup := by
  unfold insertNew
  by_cases hx : x ∈ l
  · simpa [hx] using h
  · simp [hx, List.nodup_append, h]

theorem process_asset_step {pinC : FileContent → FileContent}
    {tags : List String} {cfgFileName : String} {copyOnly sep : Bool}
    {st : WalkState} {fs : FS} {stm : WalkState}
    (h : process_asset pinC tags cfgFileName copyOnly sep st fs = some stm) :
    stm.assetCount = st.assetCount + 1 ∧
    ((asset_updated pinC tags cfgFileName copyOnly sep fs = true ∧
      stm.updatedCount = st.updatedCount + 1 ∧
      ((∃ o, stm.updatedOs = insertNew st.updatedOs o ∧
        (∀ o2, updated_env_os pinC tags cfgFileName copyOnly sep fs o2 ↔ o2 = o)) ∨
       (stm.updatedOs = st.updatedOs ∧
        ∀ o2, ¬ updated_env_os pinC tags cfgFileName copyOnly sep fs o2))) ∨
     (asset_updated pinC tags cfgFileName copyOnly sep fs = false ∧
      stm.updatedCount = st.updatedCount ∧ stm.updatedOs = st.updatedOs)) := by
  unfold process_asset at h
  cases hcfg : loadAssetConfig fs.source cfgFileName with
  | none => rw [hcfg] at h; exact absurd h (by simp)
  | some cfg =>
    rw [hcfg] at h
    simp only [] at h
    cases hua : update_asset pinC tags cfgFileName copyOnly sep fs with
    | none => rw [hua] at h; exact absurd h (by simp)
    | some r =>
      rw [hua] at h
      simp only [] at h
      have hau : asset_updated pinC tags cfgFileName copyOnly sep fs = truthy r.ret := by
        unfold asset_updated
        rw [hua]
      cases htr : truthy r.ret with
      | false =>
        rw [htr] at h
        simp only [Bool.false_eq_true, if_false, Option.some_inj] at h
        subst h
        exact ⟨rfl, Or.inr ⟨hau.trans htr, rfl, rfl⟩⟩
      | true =>
        rw [htr] at h
        simp only [if_true] at h
        by_cases hty : cfg.type = AssetType.environment
        · rw [if_pos hty] at h
          cases hecn : cfg.extraCfgName with
          | none => rw [hecn] at h; exact absurd h (by simp)
          | some ecn =>
            rw [hecn] at h
            simp only [] at h
            cases hev : loadEnvConfig fs.source ecn with
            | none => rw [hev] at h; exact absurd h (by simp)
            | some otf =>
              obtain ⟨o, tf⟩ := otf
              rw [hev] at h
              simp only [Option.some_inj] at h
              subst h
              refine ⟨rfl, Or.inl ⟨hau.trans htr, rfl, Or.inl ⟨o, rfl, fun o2 => ?_⟩⟩⟩
              constructor
              · rintro ⟨_, cfg2, ecn2, tf2, hcfg2, _, hecn2, hev2⟩
                rw [hcfg] at hcfg2
                obtain rfl : cfg = cfg2 := Option.some_inj.mp hcfg2
                rw [hecn] at hecn2
                obtain rfl : ecn = ecn2 := Option.some_inj.mp hecn2
                rw [hev] at hev2
                exact (congrArg Prod.fst (Option.some_inj.mp hev2)).symm
              · rintro rfl
                exact ⟨hau.trans htr, cfg, ecn, tf, hcfg, hty, hecn, hev⟩
        · rw [if_neg hty] at h
          simp only [Option.some_inj] at h
          subst h
          refine ⟨rfl, Or.inl ⟨hau.trans htr, rfl, Or.inr ⟨rfl, fun o2 => ?_⟩⟩⟩
          rintro ⟨_, cfg2, ecn2, tf2, hcfg2, hty2, _, _⟩
          rw [hcfg] at hcfg2
          obtain rfl : cfg = cfg2 := Option.some_inj.mp hcfg2
          exact hty hty2

theorem update_assets_go_spec (pinC : FileContent → FileContent)
    (tags : List String) (cfgFileName : String) (copyOnly sep : Bool) :
    ∀ (entries : List FS) (st st2 : WalkState),
    update_assets_go pinC tags cfgFileName copyOnly sep entries st = some st2 →
    st2.assetCount = st.assetCount + entries.length ∧
    st2.updatedCount = st.updatedCount +
      (entries.filter (asset_updated pinC tags cfgFileName copyOnly sep)).length ∧
    (st.updatedOs.Nodup → st2.updatedOs.Nodup) ∧
    (∀ o, o ∈ st2.updatedOs ↔ o ∈ st.updatedOs ∨
      ∃ fs ∈ entries, updated_env_os pinC tags cfgFileName copyOnly sep fs o) := by
  intro entries
  induction entries with
  | nil =>
    intro st st2 h
    unfold update_assets_go at h
    simp only [Option.some_inj] at h
    subst h
    simp
  | cons fs rest ih =>
    intro st st2 h
    unfold update_assets_go at h
    cases hp : process_asset pinC tags cfgFileName copyOnly sep st fs with
    | none => rw [hp] at h; exact absurd h (by simp)
    | some stm =>
      rw [hp] at h
      simp only [] at h
      obtain ⟨hac, hcase⟩ := process_asset_step hp
      obtain ⟨ihac, ihuc, ihnd, ihmem⟩ := ih stm st2 h
      refine ⟨by rw [ihac, hac, List.length_cons]; omega, ?_, ?_, ?_⟩
      · rcases hcase with ⟨hupd, huc, _⟩ | ⟨hupd, huc, _⟩
        · rw [List.filter_cons_of_pos hupd, List.length_cons, ihuc, huc]
          omega
        · rw [List.filter_cons_of_neg (by simp [hupd]), ihuc, huc]
      · intro hnd
        rcases hcase with ⟨_, _, ⟨o, hos, _⟩ | ⟨hos, _⟩⟩ | ⟨_, _, hos⟩
        · exact ihnd (hos ▸ nodup_insertNew _ _ hnd)
        · exact ihnd (hos ▸ hnd)
        · exact ihnd (hos ▸ hnd)
      · intro o2
        rw [ihmem o2, List.exists_mem_cons_iff]
        rcases hcase with ⟨_, _, ⟨o, hos, hiff⟩ | ⟨hos, hnone⟩⟩ | ⟨hupd, _, hos⟩
        · rw [hos, mem_insertNew, hiff o2]
          tauto
        · rw [hos]
          have := hnone o2
          tauto
        · rw [hos]
          have : ¬ updated_env_os pinC tags cfgFileName copyOnly sep fs o2 := by
            rintro ⟨ha, _⟩
            rw [hupd] at ha
            exact absurd ha (by simp)
          tauto

/-- C8: after the walker completes, `has_updates` is "true" exactly when at
least one asset reported a (truthy) new version, `env_os_updates` is the
comma-join of a duplicate-free list holding exactly the OS tags of the
updated ENVIRONMENT-type assets, and the final summary line reports the
updated count out of the total discovered count. -/
theorem output_signals_correct
    (pinC : FileContent → FileContent) (tags : List String)
    (cfgFileName : String) (copyOnly sep : Bool) (entries : List FS)
    (res : WalkResult)
    (h : update_assets pinC tags cfgFileName copyOnly sep entries = some res) :
    res.assetCount = entries.length ∧
    res.updatedCount =
      (entries.filter (asset_updated pinC tags cfgFileName copyOnly sep)).length ∧
    res.has_updates = (if 0 < res.updatedCount then "true" else "false") ∧
    (res.has_updates = "true" ↔
      ∃ fs ∈ entries, asset_updated pinC tags cfgFileName copyOnly sep fs = true) ∧
    res.summary = toString res.updatedCount ++ " of " ++
      toString res.assetCount ++ " asset(s) updated" ∧
    res.env_os_updates = String.intercalate "," res.updatedOs ∧
    res.updatedOs.Nodup ∧
    (∀ o, o ∈ res.updatedOs ↔ ∃ fs ∈ entries,
      updated_env_os pinC tags cfgFileName copyOnly sep fs o) := by
  unfold update_assets at h
  cases hgo : update_assets_go pinC tags cfgFileName copyOnly sep entries
      ⟨[], [], 0, 0, []⟩ with
  | none => rw [hgo] at h; exact absurd h (by simp)
  | some st =>
    rw [hgo] at h
    simp only [Option.some_inj] at h
    subst h
    obtain ⟨hac, huc, hnd, hmem⟩ :=
      update_assets_go_spec pinC tags cfgFileName copyOnly sep entries
        ⟨[], [], 0, 0, []⟩ st hgo
    simp only [] at hac huc hmem
    have hpos : 0 < st.updatedCount ↔
        ∃ fs ∈ entries, asset_updated pinC tags cfgFileName copyOnly sep fs = true := by
      rw [huc]
      simp only [Nat.zero_add]
      rw [List.length_pos_iff_exists_mem]
      constructor
      · rintro ⟨a, ha⟩
        rw [List.mem_filter] at ha
        exact ⟨a, ha.1, ha.2⟩
      · rintro ⟨a, ha, hpa⟩
        exact ⟨a, List.mem_filter.mpr ⟨ha, hpa⟩⟩
    refine ⟨by simpa using hac, by simpa using huc, rfl, ?_, rfl, rfl,
      hnd (by simp), fun o => ?_⟩
    · by_cases hgt : 0 < st.updatedCount
      · rw [if_pos hgt]
        exact ⟨fun _ => hpos.mp hgt, fun _ => rfl⟩
      · rw [if_neg hgt]
        constructor
        · intro hfalse
          have hft : ("false" : String) = "true" := hfalse
          exact absurd hft (by decide)
        · intro hex
          exact absurd (hpos.mpr hex) hgt
    · rw [hmem o]
      simp

/-- Witness for C8 on a two-asset walk: the new environment asset updates
(to version 1, OS tag linux), the unchanged static asset does not. -/
theorem output_signals_correct_witness :
    WalkResult.assetCount
      ⟨[⟨demoEnvSrc,
         some [("asset.yaml", .assetCfg .environment "env1" none "spec.yaml" (some "env.yaml")),
               ("env.yaml", .envCfg "linux" ["Dockerfile", "missing.txt"]),
               ("spec.yaml", .specFile (some "1") "sb"),
               ("Dockerfile", .raw "FROM base@pinned")], none⟩,
        demoFSStatic],
       ["Updated environment env1 to version 1"],
       2, 1, ["linux"],
       "1 of 2 asset(s) updated", "true", "linux"⟩ = [demoFSEnvNew, demoFSStatic].length ∧
    WalkResult.updatedCount
      ⟨[⟨demoEnvSrc,
         some [("asset.yaml", .assetCfg .environment "env1" none "spec.yaml" (some "env.yaml")),
               ("env.yaml", .envCfg "linux" ["Dockerfile", "missing.txt"]),
               ("spec.yaml", .specFile (some "1") "sb"),
               ("Dockerfile", .raw "FROM base@pinned")], none⟩,
        demoFSStatic],
       ["Updated environment env1 to version 1"],
       2, 1, ["linux"],
       "1 of 2 asset(s) updated", "true", "linux"⟩ =
      ([demoFSEnvNew, demoFSStatic].filter
        (asset_updated demoPin [] "asset.yaml" false false)).length ∧
    WalkResult.has_updates
      ⟨[⟨demoEnvSrc,
         some [("asset.yaml", .assetCfg .environment "env1" none "spec.yaml" (some "env.yaml")),
               ("env.yaml", .envCfg "linux" ["Dockerfile", "missing.txt"]),
               ("spec.yaml", .specFile (some "1") "sb"),
               ("Dockerfile", .raw "FROM base@pinned")], none⟩,
        demoFSStatic],
       ["Updated environment env1 to version 1"],
       2, 1, ["linux"],
       "1 of 2 asset(s) updated", "true", "linux"⟩ =
      (if 0 < WalkResult.updatedCount
        ⟨[⟨demoEnvSrc,
           some [("asset.yaml", .assetCfg .environment "env1" none "spec.yaml" (some "env.yaml")),
                 ("env.yaml", .envCfg "linux" ["Dockerfile", "missing.txt"]),
                 ("spec.yaml", .specFile (some "1") "sb"),
                 ("Dockerfile", .raw "FROM base@pinned")], none⟩,
          demoFSStatic],
         ["Updated environment env1 to version 1"],
         2, 1, ["linux"],
         "1 of 2 asset(s) updated", "true", "linux"⟩ then "true" else "false") ∧
    (WalkResult.has_updates
      ⟨[⟨demoEnvSrc,
         some [("asset.yaml", .assetCfg .environment "env1" none "spec.yaml" (some "env.yaml")),
               ("env.yaml", .envCfg "linux" ["Dockerfile", "missing.txt"]),
               ("spec.yaml", .specFile (some "1") "sb"),
               ("Dockerfile", .raw "FROM base@pinned")], none⟩,
        demoFSStatic],
       ["Updated environment env1 to version 1"],
       2, 1, ["linux"],
       "1 of 2 asset(s) updated", "true", "linux"⟩ = "true" ↔
      ∃ fs ∈ [demoFSEnvNew, demoFSStatic],
        asset_updated demoPin [] "asset.yaml" false false fs = true) ∧
    WalkResult.summary
      ⟨[⟨demoEnvSrc,
         some [("asset.yaml", .assetCfg .environment "env1" none "spec.yaml" (some "env.yaml")),
               ("env.yaml", .envCfg "linux" ["Dockerfile", "missing.txt"]),
               ("spec.yaml", .specFile (some "1") "sb"),
               ("Dockerfile", .raw "FROM base@pinned")], none⟩,
        demoFSStatic],
       ["Updated environment env1 to version 1"],
       2, 1, ["linux"],
       "1 of 2 asset(s) updated", "true", "linux"⟩ =
      toString 1 ++ " of " ++ toString 2 ++ " asset(s) updated" ∧
    WalkResult.env_os_updates
      ⟨[⟨demoEnvSrc,
         some [("asset.yaml", .assetCfg .environment "env1" none "spec.yaml" (some "env.yaml")),
               ("env.yaml", .envCfg "linux" ["Dockerfile", "missing.txt"]),
               ("spec.yaml", .specFile (some "1") "sb"),
               ("Dockerfile", .raw "FROM base@pinned")], none⟩,
        demoFSStatic],
       ["Updated environment env1 to version 1"],
       2, 1, ["linux"],
       "1 of 2 asset(s) updated", "true", "linux"⟩ =
      String.intercalate "," ["linux"] ∧
    (["linux"] : List String).Nodup ∧
    (∀ o, o ∈ (["linux"] : List String) ↔ ∃ fs ∈ [demoFSEnvNew, demoFSStatic],
      updated_env_os demoPin [] "asset.yaml" false false fs o) := by
  have h := output_signals_correct demoPin [] "asset.yaml" false false
    [demoFSEnvNew, demoFSStatic]
    ⟨[⟨demoEnvSrc,
       some [("asset.yaml", .assetCfg .environment "env1" none "spec.yaml" (some "env.yaml")),
             ("env.yaml", .envCfg "linux" ["Dockerfile", "missing.txt"]),
             ("spec.yaml", .specFile (some "1") "sb"),
             ("Dockerfile", .raw "FROM base@pinned")], none⟩,
      demoFSStatic],
     ["Updated environment env1 to version 1"],
     2, 1, ["linux"],
     "1 of 2 asset(s) updated", "true", "linux"⟩
    (by decide)
  simpa using h

/-- C10: under `copy_only` the run returns the source Spec's version string
verbatim even when it is empty; the walker counts an asset as updated only
when that value is truthy, so an asset whose directory was copied but whose
Spec version is "" is not counted, and `has_updates` is "false" although the
copy was written to the output directory (which afterwards holds the source
tree). -/
theorem copy_only_empty_version_not_counted
    (pinC : FileContent → FileContent) (tags : List String)
    (cfgFileName : String) (sep : Bool) (fs : FS)
    (cfg : AssetConfigData) (b : String)
    (hcfg : loadAssetConfig fs.source cfgFileName = some cfg)
    (hspec : loadSpec fs.source cfg.specName = some (some "", b)) :
    update_asset pinC tags cfgFileName true sep fs =
      some ⟨some "", fs.copy_replace_dir sep fs.source, [.copyReplaceDir]⟩ ∧
    update_assets pinC tags cfgFileName true sep [fs] =
      some ⟨[fs.copy_replace_dir sep fs.source], [], 1, 0, [],
        "0 of 1 asset(s) updated", "false", ""⟩ ∧
    (fs.copy_replace_dir sep fs.source).outputDir sep = some fs.source := by
  have h1 : update_asset pinC tags cfgFileName true sep fs =
      some ⟨some "", fs.copy_replace_dir sep fs.source, [.copyReplaceDir]⟩ := by
    unfold update_asset
    rw [hcfg]
    simp [hspec]
  refine ⟨h1, ?_, outputDir_copy_replace_dir fs sep fs.source⟩
  unfold update_assets update_assets_go process_asset
  rw [hcfg, h1]
  simp only [truthy, bne_self_eq_false, Bool.false_eq_true, if_false]
  unfold update_assets_go
  simp only [Option.some_inj]
  have hs : toString (0 : Nat) ++ " of " ++ toString (1 : Nat) ++
      " asset(s) updated" = "0 of 1 asset(s) updated" := by decide
  have hh : (if (0 : Nat) > 0 then "true" else "false") = "false" := by decide
  have he : String.intercalate "," ([] : List String) = "" := by decide
  simp only [List.nil_append, Nat.zero_add, hs, hh, he]

/-- Witness for C10: a copied asset with empty Spec version yields
has_updates "false" while the output tree now holds the copied source. -/
theorem copy_only_empty_version_not_counted_witness :
    update_asset id [] "asset.yaml" true true demoFSEmptyV =
      some ⟨some "", FS.copy_replace_dir demoFSEmptyV true demoFSEmptyV.source,
        [.copyReplaceDir]⟩ ∧
    update_assets id [] "asset.yaml" true true [demoFSEmptyV] =
      some ⟨[FS.copy_replace_dir demoFSEmptyV true demoFSEmptyV.source], [], 1, 0, [],
        "0 of 1 asset(s) updated", "false", ""⟩ ∧
    (FS.copy_replace_dir demoFSEmptyV true demoFSEmptyV.source).outputDir true =
      some demoFSEmptyV.source :=
  copy_only_empty_version_not_counted id [] "asset.yaml" true demoFSEmptyV
    ⟨.image, "bar", none, "spec.yaml", none⟩ "b" (by decide) (by decide)

theorem finish_promote_src_spec {cfgFileName : String} {sep : Bool} {fs : FS}
    {cfg : AssetConfigData} {relv : Option String} {tempF : Tree}
    {evs : List Event} {r : UAResult}
    (hfp : finish_promote cfgFileName sep fs cfg relv tempF evs = some r)
    (hcfgc : lookupFile tempF cfgFileName = lookupFile fs.source cfgFileName)
    (hcfg : loadAssetConfig fs.source cfgFileName = some cfg)
    (hne : cfg.specName ≠ cfgFileName) :
    ∃ sv0 sbody, lookupFile fs.source cfg.specName =
      some (.specFile sv0 sbody) := by
  obtain ⟨nv, srcSpec, outCfg, out3, hnv, hsrc, hoc, hus, hr⟩ :=
    finish_promote_inv hfp
  have hl1 : lookupFile (setFile tempF cfg.specName srcSpec) cfgFileName =
      lookupFile fs.source cfgFileName := by
    rw [lookupFile_setFile_ne _ _ _ _ (Ne.symm hne)]
    exact hcfgc
  have hcfg2 : loadAssetConfig (setFile tempF cfg.specName srcSpec) cfgFileName =
      some cfg := by
    unfold loadAssetConfig
    rw [hl1]
    exact hcfg
  rw [hcfg2] at hoc
  obtain rfl : cfg = outCfg := Option.some_inj.mp hoc
  obtain ⟨vOld, b, hl, _⟩ := update_spec_inv hus
  rw [lookupFile_setFile_self] at hl
  obtain rfl : srcSpec = .specFile vOld b := Option.some_inj.mp hl
  exact ⟨vOld, b, hsrc⟩

/-- C9: with the output directory equal to the release directory and
copy_only unset, running update_asset again immediately after a successful
run, with no intervening change to the source tree, reports no update.  The
well-formedness hypotheses say the spec filename differs from the config
filename and, for ENVIRONMENT assets, the declared template files include
neither the config nor the spec file. -/
theorem second_run_no_update
    (pinC : FileContent → FileContent) (tags : List String)
    (cfgFileName : String) (fs : FS) (cfg : AssetConfigData) (r : UAResult)
    (hcfg : loadAssetConfig fs.source cfgFileName = some cfg)
    (hne : cfg.specName ≠ cfgFileName)
    (henv : cfg.type = .environment →
      ∃ ecn o tfiles, cfg.extraCfgName = some ecn ∧
        loadEnvConfig fs.source ecn = some (o, tfiles) ∧
        cfgFileName ∉ tfiles ∧ cfg.specName ∉ tfiles)
    (h1 : update_asset pinC tags cfgFileName false false fs = some r) :
    ∃ r2, update_asset pinC tags cfgFileName false false r.fs = some r2 ∧
      r2.ret = none := by
  obtain ⟨cfg0, hcfg0, hbr⟩ := update_asset_inv h1
  rw [hcfg] at hcfg0
  obtain rfl : cfg = cfg0 := Option.some_inj.mp hcfg0
  have hstep : ∀ temp1 pins,
      stage_temp pinC cfgFileName fs.source = some (temp1, pins) →
      lookupFile temp1 cfgFileName = lookupFile fs.source cfgFileName ∧
      lookupFile temp1 cfg.specName = lookupFile fs.source cfg.specName := by
    intro temp1 pins hstage
    unfold stage_temp at hstage
    rw [hcfg] at hstage
    simp only [] at hstage
    by_cases htyp : cfg.type = AssetType.environment
    · rw [if_pos htyp] at hstage
      obtain ⟨ecn, o, tfiles, hecn, hev, hnotin1, hnotin2⟩ := henv htyp
      rw [hecn] at hstage
      simp only [] at hstage
      rw [hev] at hstage
      simp only [Option.some_inj] at hstage
      have ht1 : (pin_env_files pinC fs.source tfiles).1 = temp1 :=
        congrArg Prod.fst hstage
      rw [← ht1]
      exact ⟨pin_env_files_fst_lookup pinC tfiles fs.source cfgFileName hnotin1,
             pin_env_files_fst_lookup pinC tfiles fs.source cfg.specName hnotin2⟩
    · rw [if_neg htyp] at hstage
      simp only [Option.some_inj] at hstage
      have ht1 : fs.source = temp1 := congrArg Prod.fst hstage
      rw [← ht1]
      exact ⟨rfl, rfl⟩
  have hpromote : ∀ (relv : Option String) (tempF temp1 : Tree)
      (pins evs : List Event),
      stage_temp pinC cfgFileName fs.source = some (temp1, pins) →
      lookupFile tempF cfgFileName = lookupFile fs.source cfgFileName →
      (∀ c : FileContent,
        setFile tempF cfg.specName c = setFile temp1 cfg.specName c) →
      finish_promote cfgFileName false fs cfg relv tempF evs = some r →
      ∃ r2, update_asset pinC tags cfgFileName false false r.fs = some r2 ∧
        r2.ret = none := by
    intro relv tempF temp1 pins evs hstage hkeepF huni hfp
    obtain ⟨hk1, hk2⟩ := hstep temp1 pins hstage
    obtain ⟨sv0, sbody, hsrcspec⟩ := finish_promote_src_spec hfp hkeepF hcfg hne
    obtain ⟨nv, hnv, hr⟩ := finish_promote_clean_spec hfp hkeepF hcfg hne hsrcspec
    have hrelcfg : loadAssetConfig
        (setFile temp1 cfg.specName (.specFile (some nv) sbody)) cfgFileName =
        some cfg := by
      unfold loadAssetConfig
      rw [lookupFile_setFile_ne _ _ _ _ (Ne.symm hne), hk1]
      exact hcfg
    have hrelspec : loadSpec
        (setFile temp1 cfg.specName (.specFile (some nv) sbody)) cfg.specName =
        some (some nv, sbody) := by
      unfold loadSpec
      rw [lookupFile_setFile_self]
    have hupd2 : update_spec temp1 cfg.specName (some nv) =
        some (setFile temp1 cfg.specName (.specFile (some nv) sbody)) := by
      unfold update_spec
      rw [hk2, hsrcspec]
    have hrun2 : ∀ fs2 : FS, fs2.source = fs.source →
        fs2.release = some (setFile temp1 cfg.specName (.specFile (some nv) sbody)) →
        ∃ r2, update_asset pinC tags cfgFileName false false fs2 = some r2 ∧
          r2.ret = none := by
      intro fs2 hsrc2 hr2
      unfold update_asset
      rw [hsrc2, hcfg]
      simp only [Bool.false_eq_true, if_false]
      rw [hr2]
      simp only [hrelcfg]
      by_cases htyv : truthy cfg.version = true
      · rw [htyv]
        simp only [eq_self_iff_true, if_true]
        exact ⟨⟨none, fs2, []⟩, rfl, rfl⟩
      · have htyf : truthy cfg.version = false := by
          cases hb : truthy cfg.version
          · rfl
          · exact absurd hb htyv
        rw [htyf]
        simp only [Bool.false_eq_true, if_false]
        rw [hrelspec]
        simp only []
        unfold check_tag_and_stage
        cases htag2 : release_tag_exists tags cfg with
        | false =>
          simp only [Bool.false_eq_true, if_false]
          exact ⟨⟨none, fs2,
            [.warnUnreleased cfg.type.value cfg.name (some nv)]⟩, rfl, rfl⟩
        | true =>
          simp only [eq_self_iff_true, if_true]
          unfold stage_and_finish
          rw [hsrc2, hstage]
          simp only [if_true]
          rw [hupd2]
          simp only []
          rw [are_dir_trees_equal_refl]
          simp only [if_true]
          exact ⟨⟨none, fs2, pins ++ [.stampTemp (some nv), .compareDirs true]⟩,
            rfl, rfl⟩
    have hrfs : r.fs = fs.copy_replace_dir false
        (setFile tempF cfg.specName (.specFile (some nv) sbody)) := by
      rw [hr]
    rw [hrfs, huni (.specFile (some nv) sbody)]
    exact hrun2 _ rfl rfl
  rcases hbr with ⟨hreln, hsaf⟩ | ⟨rel, relCfg, hrel, hrc, hcase⟩
  · obtain ⟨temp1, pins, hstage, hfin⟩ := stage_and_finish_inv hsaf
    rcases hfin with ⟨_, hfp⟩ | ⟨hchk, _⟩
    · obtain ⟨hk1, _⟩ := hstep temp1 pins hstage
      exact hpromote none temp1 temp1 pins pins hstage hk1 (fun c => rfl) hfp
    · exact absurd hchk (by simp)
  · rcases hcase with ⟨hty, hveq, hr⟩ | ⟨hty, hvne, hcts⟩ | ⟨hty, rsv, rb, hrs, hcts⟩
    · refine ⟨r, ?_, by rw [hr]⟩
      rw [show r.fs = fs by rw [hr]]
      exact h1
    · rcases check_tag_and_stage_inv hcts with ⟨_, hr⟩ | ⟨_, hsaf⟩
      · refine ⟨r, ?_, by rw [hr]⟩
        rw [show r.fs = fs by rw [hr]]
        exact h1
      · obtain ⟨temp1, pins, hstage, hfin⟩ := stage_and_finish_inv hsaf
        rcases hfin with ⟨_, hfp⟩ | ⟨hchk, _⟩
        · obtain ⟨hk1, _⟩ := hstep temp1 pins hstage
          exact hpromote relCfg.version temp1 temp1 pins pins hstage hk1
            (fun c => rfl) hfp
        · exact absurd hchk (by simp)
    · rcases check_tag_and_stage_inv hcts with ⟨_, hr⟩ | ⟨_, hsaf⟩
      · refine ⟨r, ?_, by rw [hr]⟩
        rw [show r.fs = fs by rw [hr]]
        exact h1
      · obtain ⟨temp1, pins, hstage, hfin⟩ := stage_and_finish_inv hsaf
        rcases hfin with ⟨hchk, _⟩ | ⟨_, relT, temp2, _, hup, hcmp⟩
        · exact absurd hchk (by simp)
        · rcases hcmp with ⟨_, hr⟩ | ⟨_, hfp⟩
          · refine ⟨r, ?_, by rw [hr]⟩
            rw [show r.fs = fs by rw [hr]]
            exact h1
          · obtain ⟨hk1, _⟩ := hstep temp1 pins hstage
            obtain ⟨vOld, b1, hlk, htemp2⟩ := update_spec_inv hup
            have hk1t2 : lookupFile temp2 cfgFileName =
                lookupFile fs.source cfgFileName := by
              rw [htemp2, lookupFile_setFile_ne _ _ _ _ (Ne.symm hne)]
              exact hk1
            have huni2 : ∀ c : FileContent,
                setFile temp2 cfg.specName c = setFile temp1 cfg.specName c := by
              intro c
              rw [htemp2, setFile_setFile]
            exact hpromote rsv temp2 temp1 pins
              (pins ++ [.stampTemp rsv, .compareDirs false]) hstage hk1t2 huni2 hfp

/-- Witness for C9: rerunning immediately after the sample dynamic asset was
promoted to version 3 reports no update. -/
theorem second_run_no_update_witness :
    ∃ r2, update_asset id ["refs/tags/image/foo/None"] "asset.yaml" false false
      (UAResult.fs ⟨some "3",
        ⟨demoSrcDyn2,
         some [("asset.yaml", .assetCfg .image "foo" none "spec.yaml" none),
               ("spec.yaml", .specFile (some "3") "b"),
               ("Dockerfile", .raw "y")], none⟩,
        [.stampTemp (some "2"), .compareDirs false, .copyReplaceDir,
         .copySpecToOutput, .updateOutputSpec "3"]⟩) = some r2 ∧
      r2.ret = none :=
  second_run_no_update id ["refs/tags/image/foo/None"] "asset.yaml" demoFSDyn2
    ⟨.image, "foo", none, "spec.yaml", none⟩
    ⟨some "3",
     ⟨demoSrcDyn2,
      some [("asset.yaml", .assetCfg .image "foo" none "spec.yaml" none),
            ("spec.yaml", .specFile (some "3") "b"),
            ("Dockerfile", .raw "y")], none⟩,
     [.stampTemp (some "2"), .compareDirs false, .copyReplaceDir,
      .copySpecToOutput, .updateOutputSpec "3"]⟩
    (by decide) (by decide) (fun h => absurd h (by decide)) (by decide)
